import Mathlib

/-!
Verification of the draggable-box repository: a shallow embedding of the
box registry (`src/state.ts`) and of the pure position/gesture logic of the
drag engine (`src/drag.ts`), with theorems settling the specification's
claims about them.

Conventions of the embedding:
* JavaScript numbers that only ever hold small non-negative integers
  (`boxId`, `zIndex`, `topIndex`, box ids) are modelled as `Nat`;
  pixel coordinates, which can go negative, as `Int`.
* The module-level mutable variables of `state.ts` become an explicit
  `RegState` record threaded through the operations.
* A thrown JavaScript exception is modelled as `none` in an `Option`
  result, paired with the (unchanged) globals that survive the throw.
-/

namespace DraggableBox

/-- Embeds `Position` from `src/types.ts`. -/
structure Position where
  x : Int
  y : Int
deriving Repr, DecidableEq

/-- Embeds `Size` from `src/types.ts` (`width`, `height`). -/
structure Size where
  width : Int
  height : Int
deriving Repr, DecidableEq

/-- Embeds `BoxConfig` from `src/types.ts`, with the nested
`header`/`content` objects flattened into their fields. -/
structure BoxConfig where
  headerTitle : String
  headerColor : String
  start : Position
  size : Size
  contentText : String
  contentColor : String
deriving Repr, DecidableEq

/-- Embeds `DEFAULT_CONFIG` from `src/types.ts`. -/
def DEFAULT_CONFIG : BoxConfig :=
  { headerTitle := "Klick mich"
  , headerColor := "lightgrey"
  , start := ⟨0, 0⟩
  , size := ⟨100, 200⟩
  , contentText := "Hallo Welt"
  , contentColor := "lightcyan" }

/-- Embeds the box records built by `createNewBox` in `src/state.ts`:
a `CreateBoxOptions` value with `config`, `id`, `zIndex` and `position`
set (the only fields the program ever sets). -/
structure CreateBoxOptions where
  config : BoxConfig
  id : Nat
  zIndex : Nat
  position : Position
deriving Repr, DecidableEq

/-- The module-level mutable state of `src/state.ts`: the array
`dragBoxList` and the counters `boxId`, `zIndex`, `topIndex`. -/
structure RegState where
  dragBoxList : List CreateBoxOptions
  boxId : Nat
  zIndex : Nat
  topIndex : Nat
deriving Repr, DecidableEq

/-- The initial values of the `src/state.ts` globals:
`dragBoxList = []`, `boxId = 1`, `zIndex = 0`, `topIndex = 1`. -/
def initState : RegState :=
  { dragBoxList := [], boxId := 1, zIndex := 0, topIndex := 1 }

/-- First index (from 0) at which the predicate holds, `none` when it never
does; helper for the JavaScript `Array.prototype.findIndex` embedding. -/
def findIdxAux (p : α → Bool) : List α → Option Nat
  | [] => none
  | a :: l => if p a then some 0 else (findIdxAux p l).map (· + 1)

/-- JavaScript `Array.prototype.findIndex`: the first matching index, or
`-1` when no element matches. -/
def findIndex (p : α → Bool) (l : List α) : Int :=
  match findIdxAux p l with
  | some i => (i : Int)
  | none => -1

/-- JavaScript `Array.prototype.splice(start, 1)`: a negative `start`
counts back from the end of the array (clipped at 0), and one element is
removed at the resulting index (none when it is past the end). -/
def splice1 (l : List α) (start : Int) : List α :=
  let s : Nat := if start < 0 then ((l.length : Int) + start).toNat else start.toNat
  l.take s ++ l.drop (s + 1)

/-- Replace the element at index `i` by its image under `f` (identity when
`i` is out of range); helper for the in-place field assignment
`dragBoxList[boxIndex].zIndex = topIndex`. -/
def modifyAt (f : α → α) : Nat → List α → List α
  | _, [] => []
  | 0, a :: l => f a :: l
  | n + 1, a :: l => a :: modifyAt f n l

/-- Embeds `createNewBox` from `src/state.ts`: builds the new record from
the current `boxId` and `zIndex` counters, increments `boxId`, `zIndex`
and `topIndex`, appends the record to `dragBoxList` and returns it. -/
def createNewBox (s : RegState) : CreateBoxOptions × RegState :=
  let newBoxItem : CreateBoxOptions :=
    { config := DEFAULT_CONFIG
    , id := s.boxId
    , zIndex := s.zIndex
    , position := ⟨0, 0⟩ }
  (newBoxItem,
    { dragBoxList := s.dragBoxList ++ [newBoxItem]
    , boxId := s.boxId + 1
    , zIndex := s.zIndex + 1
    , topIndex := s.topIndex + 1 })

/-- Embeds `bringBoxToFront` from `src/state.ts`. When the id is found,
the box's `zIndex` is assigned the current `topIndex`, `topIndex` is
incremented and the assigned value is returned. When `findIndex` yields
`-1`, the source evaluates `dragBoxList[-1].zIndex = topIndex`, i.e. it
sets a property of `undefined`, which throws a `TypeError` before
`topIndex++` runs: this crash is modelled as a `none` result paired with
the unchanged globals. -/
def bringBoxToFront (id : Nat) (s : RegState) : Option Nat × RegState :=
  match findIdxAux (fun box => box.id == id) s.dragBoxList with
  | none => (none, s)
  | some boxIndex =>
    (some s.topIndex,
      { s with
          dragBoxList :=
            modifyAt (fun box => { box with zIndex := s.topIndex })
              boxIndex s.dragBoxList
        , topIndex := s.topIndex + 1 })

/-- Embeds `deleteBox` from `src/state.ts`: `splice(findIndex(...), 1)`
with the JavaScript semantics of both calls (no check for `-1`). -/
def deleteBox (id : Nat) (s : RegState) : RegState :=
  let boxIndex := findIndex (fun box => box.id == id) s.dragBoxList
  { s with dragBoxList := splice1 s.dragBoxList boxIndex }

/-- One call into the `src/state.ts` API (return values discarded). -/
inductive Op where
  | create : Op
  | delete : Nat → Op
  | promote : Nat → Op
deriving Repr, DecidableEq

/-- The registry state after one API call. -/
def applyOp (s : RegState) : Op → RegState
  | .create => (createNewBox s).2
  | .delete id => deleteBox id s
  | .promote id => (bringBoxToFront id s).2

/-- The registry state after a whole call sequence, from the initial
globals. -/
def runOps (ops : List Op) : RegState := ops.foldl applyOp initState

/-- Registry states reachable from the initial globals by some call
sequence. -/
inductive Reachable : RegState → Prop
  | init : Reachable initState
  | step : ∀ {s : RegState} (op : Op), Reachable s → Reachable (applyOp s op)

/-- The constants a drag session captures at pointer-down in
`makeDraggable` (`src/drag.ts`): the pointer offsets inside the box, the
container bounds and the box dimensions. -/
structure DragSession where
  offsetX : Int
  offsetY : Int
  maxWidth : Int
  maxHeight : Int
  boxWidth : Int
  boxHeight : Int
deriving Repr, DecidableEq

/-- Embeds the per-`mousemove` position computation of `makeDraggable`
(`src/drag.ts`): `proposed = client - offset` per axis, then
`newLeft = Math.min(Math.max(proposedLeft, 0), maxWidth - boxWidth)` and
`newTop = Math.min(Math.max(proposedTop, 0), maxHeight - boxHeight)`. -/
def movePosition (sess : DragSession) (clientX clientY : Int) : Int × Int :=
  let proposedLeft := clientX - sess.offsetX
  let proposedTop := clientY - sess.offsetY
  let newLeft := min (max proposedLeft 0) (sess.maxWidth - sess.boxWidth)
  let newTop := min (max proposedTop 0) (sess.maxHeight - sess.boxHeight)
  (newLeft, newTop)

/-- The clamp function as the specification words it:
`clamp(v, lo, hi) = max(lo, min(v, hi))`. Stated separately from
`movePosition` so the two can be compared. -/
def clamp (v lo hi : Int) : Int := max lo (min v hi)

/-- Helper for `closedBuffers`: walks the remaining pointer-down times
with the time of the previous down (`last`) and the current buffer in
reverse (`cur`); a down arriving `quiet` ms or later after the previous
one closes the current buffer (the `debounceTime(quiet)` emission, due
exactly `quiet` ms after `last`, fires first), and the trailing buffer is
closed by the final quiet period. -/
def bufferGo (quiet : Int) : Int → List Int → List Int → List (List Int)
  | _, cur, [] => [cur.reverse]
  | last, cur, t :: ts =>
    if quiet ≤ t - last then cur.reverse :: bufferGo quiet t [t] ts
    else bufferGo quiet t (t :: cur) ts

/-- Embeds `mouseDown$.pipe(buffer(mouseDown$.pipe(debounceTime(250))))`
from `src/drag.ts` for a finite, chronologically ordered list of
pointer-down timestamps (in ms): the closed gesture buffers, in order. -/
def closedBuffers (ts : List Int) : List (List Int) :=
  match ts with
  | [] => []
  | t :: rest => bufferGo 250 t [t] rest

/-- Embeds `doubleClick$` from `src/drag.ts`: the buffered pointer-downs
mapped to their count (`map(mouseDown => mouseDown.length)`) and kept
only when at least two (`filter(mouseDownLength => mouseDownLength >= 2)`);
each list entry is one fired double-gesture event. -/
def doubleClickEmissions (ts : List Int) : List Nat :=
  ((closedBuffers ts).map List.length).filter (fun n => decide (2 ≤ n))

/-- Relation between consecutive closed buffers: the first down of the
later buffer arrives at least `quiet` ms after the last down of the
earlier one. -/
def bufferGap (quiet : Int) (b c : List Int) : Prop :=
  ∀ x ∈ b.getLast?, ∀ y ∈ c.head?, quiet ≤ y - x

/-- The ids returned by the `createNewBox` calls of an operation trace,
in call order. -/
def createdIds : RegState → List Op → List Nat
  | _, [] => []
  | s, Op.create :: ops => (createNewBox s).1.id :: createdIds (createNewBox s).2 ops
  | s, Op.delete id :: ops => createdIds (deleteBox id s) ops
  | s, Op.promote id :: ops => createdIds (bringBoxToFront id s).2 ops

/-- The bookkeeping invariant of the registry globals, proved below to
hold in every reachable state: every live `zIndex` and the `zIndex`
counter lie strictly below `topIndex`, every live id lies strictly below
`boxId`, and live ids are duplicate-free. -/
structure RegInv (s : RegState) : Prop where
  zIndex_lt : ∀ box ∈ s.dragBoxList, box.zIndex < s.topIndex
  id_lt : ∀ box ∈ s.dragBoxList, box.id < s.boxId
  counter_lt : s.zIndex < s.topIndex
  ids_nodup : (s.dragBoxList.map CreateBoxOptions.id).Nodup

theorem findIdxAux_eq_none_iff {p : α → Bool} :
    ∀ {l : List α}, findIdxAux p l = none ↔ ∀ x ∈ l, ¬ p x = true := by
  intro l
  induction l with
  | nil => simp [findIdxAux]
  | cons a t ih =>
    by_cases h : p a
    · simp [findIdxAux, h]
    · simp [findIdxAux, h, ih]

theorem findIdxAux_some {p : α → Bool} :
    ∀ {l : List α} {i : Nat}, findIdxAux p l = some i →
      ∃ h : i < l.length, p (l.get ⟨i, h⟩) = true := by
  intro l
  induction l with
  | nil => intro i h; simp [findIdxAux] at h
  | cons a t ih =>
    intro i h
    by_cases hp : p a
    · simp [findIdxAux, hp] at h
      exact h ▸ ⟨Nat.succ_pos _, hp⟩
    · simp [findIdxAux, hp, Option.map_eq_some'] at h
      obtain ⟨j, hj, rfl⟩ := h
      obtain ⟨hlt, hpj⟩ := ih hj
      exact ⟨Nat.succ_lt_succ hlt, hpj⟩

theorem modifyAt_length (f : α → α) :
    ∀ (i : Nat) (l : List α), (modifyAt f i l).length = l.length := by
  intro i l
  induction l generalizing i with
  | nil => cases i <;> rfl
  | cons a t ih => cases i with
    | zero => rfl
    | succ n => simpa [modifyAt] using ih n

theorem mem_modifyAt {f : α → α} :
    ∀ {i : Nat} {l : List α} {x : α}, x ∈ modifyAt f i l →
      x ∈ l ∨ ∃ h : i < l.length, x = f (l.get ⟨i, h⟩) := by
  intro i l
  induction l generalizing i with
  | nil => intro x hx; cases i <;> simp [modifyAt] at hx
  | cons a t ih =>
    intro x hx
    cases i with
    | zero =>
      rcases List.mem_cons.mp hx with h | h
      · exact Or.inr ⟨Nat.succ_pos _, h⟩
      · exact Or.inl (List.mem_cons_of_mem _ h)
    | succ n =>
      rcases List.mem_cons.mp hx with h | h
      · exact Or.inl (h ▸ List.mem_cons_self _ _)
      · rcases ih h with h' | ⟨hlt, heq⟩
        · exact Or.inl (List.mem_cons_of_mem _ h')
        · exact Or.inr ⟨Nat.succ_lt_succ hlt, heq⟩

theorem modifyAt_self_mem (f : α → α) :
    ∀ (i : Nat) (l : List α) (h : i < l.length),
      f (l.get ⟨i, h⟩) ∈ modifyAt f i l := by
  intro i l
  induction l generalizing i with
  | nil => intro h; cases h
  | cons a t ih =>
    intro h
    cases i with
    | zero => exact List.mem_cons_self _ _
    | succ n => exact List.mem_cons_of_mem _ (ih n (Nat.lt_of_succ_lt_succ h))

theorem map_modifyAt {f : α → α} (g : α → β) (hg : ∀ a, g (f a) = g a) :
    ∀ (i : Nat) (l : List α), (modifyAt f i l).map g = l.map g := by
  intro i l
  induction l generalizing i with
  | nil => cases i <;> rfl
  | cons a t ih => cases i with
    | zero => simp [modifyAt, hg]
    | succ n => simp [modifyAt, ih n]

theorem splice1_sublist (l : List α) (start : Int) :
    (splice1 l start).Sublist l := by
  unfold splice1
  have h : ∀ s : Nat, (l.take s ++ l.drop (s + 1)).Sublist l := by
    intro s
    have h1 : (l.drop (s + 1)).Sublist (l.drop s) := by
      simpa [List.drop_drop, Nat.add_comm] using List.drop_sublist 1 (l.drop s)
    have h2 := h1.append_left (l.take s)
    rwa [List.take_append_drop] at h2
  exact h _

theorem splice1_neg_one (l : List α) (hne : l ≠ []) :
    splice1 l (-1) = l.dropLast := by
  unfold splice1
  have hpos : 0 < l.length := List.length_pos.mpr hne
  have hidx : ((l.length : Int) + -1).toNat = l.length - 1 := by omega
  have hone : ¬ ((-1 : Int) < 0) = False := by simp
  simp only [if_pos (by norm_num : (-1 : Int) < 0), hidx]
  have hd : l.length - 1 + 1 = l.length := by omega
  rw [hd, List.drop_length, List.append_nil, ← List.dropLast_eq_take]

theorem regInv_init : RegInv initState := by
  constructor <;> simp [initState]

theorem regInv_create {s : RegState} (hs : RegInv s) :
    RegInv (createNewBox s).2 := by
  constructor
  · intro box hbox
    rcases List.mem_append.mp hbox with h | h
    · exact Nat.lt_succ_of_lt (hs.zIndex_lt box h)
    · rcases List.mem_singleton.mp h with rfl
      exact Nat.lt_succ_of_lt hs.counter_lt
  · intro box hbox
    rcases List.mem_append.mp hbox with h | h
    · exact Nat.lt_succ_of_lt (hs.id_lt box h)
    · rcases List.mem_singleton.mp h with rfl
      exact Nat.lt_succ_self _
  · exact Nat.succ_lt_succ hs.counter_lt
  · simp only [createNewBox, List.map_append, List.map_cons, List.map_nil]
    refine List.Nodup.append hs.ids_nodup (List.nodup_singleton _) ?_
    intro a ha hb
    rcases List.mem_singleton.mp hb with rfl
    rcases List.mem_map.mp ha with ⟨box, hbox, hid⟩
    exact absurd (hid ▸ hs.id_lt box hbox) (Nat.lt_irrefl _)

theorem regInv_delete {s : RegState} (hs : RegInv s) (id : Nat) :
    RegInv (deleteBox id s) := by
  have hsub : (deleteBox id s).dragBoxList.Sublist s.dragBoxList :=
    splice1_sublist _ _
  constructor
  · intro box hbox; exact hs.zIndex_lt box (hsub.subset hbox)
  · intro box hbox; exact hs.id_lt box (hsub.subset hbox)
  · exact hs.counter_lt
  · exact hs.ids_nodup.sublist (hsub.map _)

theorem regInv_promote {s : RegState} (hs : RegInv s) (id : Nat) :
    RegInv (bringBoxToFront id s).2 := by
  unfold bringBoxToFront
  cases h : findIdxAux (fun box => box.id == id) s.dragBoxList with
  | none => exact hs
  | some i =>
    constructor
    · intro box hbox
      rcases mem_modifyAt hbox with h' | ⟨hlt, rfl⟩
      · exact Nat.lt_succ_of_lt (hs.zIndex_lt box h')
      · exact Nat.lt_succ_self _
    · intro box hbox
      rcases mem_modifyAt hbox with h' | ⟨hlt, rfl⟩
      · exact hs.id_lt box h'
      · exact hs.id_lt (s.dragBoxList.get ⟨i, hlt⟩) (List.get_mem _ _ _)
    · exact Nat.lt_succ_of_lt hs.counter_lt
    · have := map_modifyAt (f := fun box => { box with zIndex := s.topIndex })
        CreateBoxOptions.id (fun a => rfl) i s.dragBoxList
      simpa [this] using hs.ids_nodup

theorem regInv_applyOp {s : RegState} (hs : RegInv s) (op : Op) :
    RegInv (applyOp s op) := by
  cases op with
  | create => exact regInv_create hs
  | delete id => exact regInv_delete hs id
  | promote id => exact regInv_promote hs id

theorem regInv_reachable {s : RegState} (hs : Reachable s) : RegInv s := by
  induction hs with
  | init => exact regInv_init
  | step op _ ih => exact regInv_applyOp ih op

theorem reachable_foldl (ops : List Op) :
    ∀ s : RegState, Reachable s → Reachable (ops.foldl applyOp s) := by
  induction ops with
  | nil => intro s hs; exact hs
  | cons op ops ih =>
    intro s hs
    exact ih (applyOp s op) (Reachable.step op hs)

theorem reachable_runOps (ops : List Op) : Reachable (runOps ops) :=
  reachable_foldl ops initState Reachable.init

/-- Claim C1, counterexample: in the scenario `createBox(); createBox();
bringToFront(1)` the first box's `zIndex` after the promotion is `3`, not
`2` as claimed — `topIndex` starts at `1` and is also incremented by both
creations, so the promotion hands out `3`. -/
theorem C1_promotion_zIndex_counterexample :
    ((runOps [Op.create, Op.create, Op.promote 1]).dragBoxList.map
      (fun b => (b.id, b.zIndex))) = [(1, 3), (2, 1)] ∧
    ¬ ((runOps [Op.create, Op.create, Op.promote 1]).dragBoxList.map
      (fun b => (b.id, b.zIndex))) = [(1, 2), (2, 1)] := by
  constructor
  · rfl
  · decide

/-- Claim C1, amended: from a fresh registry, `createBox()` returns the box
`id = 1, zIndex = 0`, the second `createBox()` returns `id = 2,
zIndex = 1`, and `bringToFront(1)` assigns the first box `zIndex = 3`
(the current `topIndex`), leaving the second box at `zIndex = 1`; the
first box is then topmost. -/
theorem C1_end_to_end_scenario :
    (createNewBox initState).1.id = 1 ∧
    (createNewBox initState).1.zIndex = 0 ∧
    (createNewBox (createNewBox initState).2).1.id = 2 ∧
    (createNewBox (createNewBox initState).2).1.zIndex = 1 ∧
    (bringBoxToFront 1 (createNewBox (createNewBox initState).2).2).1
      = some 3 ∧
    ((bringBoxToFront 1 (createNewBox (createNewBox initState).2).2).2.dragBoxList.map
      (fun b => (b.id, b.zIndex))) = [(1, 3), (2, 1)] := by
  refine ⟨rfl, rfl, rfl, rfl, rfl, rfl⟩

/-- Claim C2 (code bug): `deleteBox` with an id absent from the live
collection is not a no-op. On a registry holding exactly box `1`,
`deleteBox 2` removes box `1` (the `findIndex` result `-1` is passed
unchecked to `splice`, which interprets it as the last element); likewise
the second of two `deleteBox 1` calls on a two-box registry removes the
remaining box `2`, so deletion is not idempotent. -/
theorem C2_deleteBox_missing_id_not_noop :
    (createNewBox initState).2.dragBoxList.map CreateBoxOptions.id = [1] ∧
    (deleteBox 2 (createNewBox initState).2).dragBoxList = [] ∧
    (deleteBox 1 (runOps [Op.create, Op.create])).dragBoxList.map
      CreateBoxOptions.id = [2] ∧
    (deleteBox 1 (deleteBox 1 (runOps [Op.create, Op.create]))).dragBoxList
      = [] := by
  refine ⟨rfl, rfl, rfl, rfl⟩

/-- Claim C3, counterexample: after `createBox(); bringToFront(1);
createBox()` the most recently created box (id `2`) holds `zIndex = 1`
while box `1` holds `zIndex = 2`, so the box most recently promoted or
created does not hold the maximum `zIndex` among live boxes; moreover the
second creation handed out `1` even though `topIndex` was `3` at that
point, so `topIndex` does not hand out the `zIndex` on creation. -/
theorem C3_latest_created_not_max :
    ((runOps [Op.create, Op.promote 1, Op.create]).dragBoxList.map
      (fun b => (b.id, b.zIndex))) = [(1, 2), (2, 1)] ∧
    ((runOps [Op.create, Op.promote 1, Op.create]).dragBoxList.getLast?.map
      (fun b => (b.id, b.zIndex))) = some (2, 1) ∧
    ((runOps [Op.create, Op.promote 1, Op.create]).dragBoxList.map
      CreateBoxOptions.zIndex).maximum? = some 2 ∧
    (runOps [Op.create, Op.promote 1]).topIndex = 3 := by
  refine ⟨rfl, rfl, by decide, rfl⟩

/-- Claim C6, counterexample: in a session with
`maxWidth - boxWidth = 10 - 20 = -10 < 0`, a pointer-move at `(5, 5)`
emits `x = -10`, the negative upper bound, not the lower bound `0` the
claim states: the code computes `min(max(v, 0), hi)`, which degenerates
to `hi`, not to `0`, when `hi < 0`. -/
theorem C6_negative_range_counterexample :
    (movePosition ⟨0, 0, 10, 400, 20, 50⟩ 5 5).1 = -10 ∧
    ¬ (movePosition ⟨0, 0, 10, 400, 20, 50⟩ 5 5).1 = 0 := by
  refine ⟨rfl, by decide⟩

/-- Claim C7 (code bug): `bringBoxToFront` on an id absent from the live
collection does not raise a recoverable `NotFound` condition — it throws
a `TypeError` (`dragBoxList[-1]` is `undefined`, and the code assigns to
its `zIndex` property), modelled here as the `none` result; the throw
happens before `topIndex++`, so the counter and the collection are indeed
left unmutated. -/
theorem C7_missing_id_crash_no_mutation :
    (createNewBox initState).2.dragBoxList.map CreateBoxOptions.id = [1] ∧
    (bringBoxToFront 5 (createNewBox initState).2).1 = none ∧
    (bringBoxToFront 5 (createNewBox initState).2).2
      = (createNewBox initState).2 := by
  refine ⟨rfl, rfl, rfl⟩

/-- Claim C8 (confirmed): with the session constants
`bounds = (500, 400)`, `boxSize = (100, 50)`, `offset = (10, 10)`, a
pointer-move at `(1000, 1000)` emits `(400, 350)` and one at `(-50, -50)`
emits `(0, 0)`; moreover at these constants every emission equals the
spec's `clamp(pointer - offset, 0, bound - size)` on each axis
independently. -/
theorem C8_clamp_examples :
    movePosition ⟨10, 10, 500, 400, 100, 50⟩ 1000 1000 = (400, 350) ∧
    movePosition ⟨10, 10, 500, 400, 100, 50⟩ (-50) (-50) = (0, 0) ∧
    ∀ cx cy : Int,
      movePosition ⟨10, 10, 500, 400, 100, 50⟩ cx cy
        = (clamp (cx - 10) 0 400, clamp (cy - 10) 0 350) := by
  refine ⟨rfl, rfl, fun cx cy => ?_⟩
  unfold movePosition clamp
  refine Prod.ext ?_ ?_ <;> simp only [] <;> omega

/-- Claim C4 (confirmed): `deleteBox` with an id absent from the live
collection removes the most recently appended box when the collection is
non-empty (`findIndex` yields `-1` and `splice(-1, 1)` drops the last
element), decreasing the live count by exactly one; on an empty
collection it changes nothing. -/
theorem C4_deleteBox_missing_removes_last (s : RegState) (id : Nat)
    (habs : ∀ box ∈ s.dragBoxList, box.id ≠ id) :
    (s.dragBoxList ≠ [] →
      (deleteBox id s).dragBoxList = s.dragBoxList.dropLast ∧
      (deleteBox id s).dragBoxList.length + 1 = s.dragBoxList.length) ∧
    (s.dragBoxList = [] → deleteBox id s = s) := by
  have hnone : findIdxAux (fun box => box.id == id) s.dragBoxList = none := by
    rw [findIdxAux_eq_none_iff]
    intro box hbox
    simpa using habs box hbox
  have hidx : findIndex (fun box => box.id == id) s.dragBoxList = -1 := by
    unfold findIndex
    rw [hnone]
  constructor
  · intro hne
    have hdel : (deleteBox id s).dragBoxList = s.dragBoxList.dropLast := by
      unfold deleteBox
      rw [hidx]
      show splice1 s.dragBoxList (-1) = s.dragBoxList.dropLast
      exact splice1_neg_one s.dragBoxList hne
    refine ⟨hdel, ?_⟩
    rw [hdel, List.length_dropLast]
    have : 0 < s.dragBoxList.length := List.length_pos.mpr hne
    omega
  · intro hempty
    unfold deleteBox
    rw [hidx]
    cases s with
    | mk l a b c =>
      simp only at hempty
      subst hempty
      rfl

theorem C4_deleteBox_missing_removes_last_witness :
    (deleteBox 5 (runOps [Op.create, Op.create])).dragBoxList
      = (runOps [Op.create, Op.create]).dragBoxList.dropLast :=
  ((C4_deleteBox_missing_removes_last (runOps [Op.create, Op.create]) 5
    (by decide)).1 (by decide)).1

/-- Claim C5 (confirmed): in every reachable registry state, promoting an
id that is present in the live collection leaves that box with the unique
maximum `zIndex`: every other live box's `zIndex` is strictly smaller
immediately after the call. -/
theorem C5_promoted_unique_max (s : RegState) (hs : Reachable s) (id : Nat)
    (hlive : ∃ box ∈ s.dragBoxList, box.id = id) :
    ∃ box ∈ (bringBoxToFront id s).2.dragBoxList,
      box.id = id ∧
      ∀ other ∈ (bringBoxToFront id s).2.dragBoxList,
        other.id ≠ id → other.zIndex < box.zIndex := by
  have hinv : RegInv s := regInv_reachable hs
  obtain ⟨wbox, hwmem, hwid⟩ := hlive
  have hnotnone : findIdxAux (fun box => box.id == id) s.dragBoxList ≠ none := by
    intro hnone
    have := (findIdxAux_eq_none_iff.mp hnone) wbox hwmem
    simp [hwid] at this
  obtain ⟨i, hi⟩ := Option.ne_none_iff_exists'.mp hnotnone
  obtain ⟨hlt, hp⟩ := findIdxAux_some hi
  have hgetid : (s.dragBoxList.get ⟨i, hlt⟩).id = id := by
    simpa using hp
  refine ⟨{ s.dragBoxList.get ⟨i, hlt⟩ with zIndex := s.topIndex }, ?_, ?_, ?_⟩
  · simp only [bringBoxToFront, hi]
    exact modifyAt_self_mem _ i s.dragBoxList hlt
  · simpa using hgetid
  · intro other hother hoid
    simp only [bringBoxToFront, hi] at hother
    rcases mem_modifyAt hother with h' | ⟨hlt', rfl⟩
    · exact hinv.zIndex_lt other h'
    · exact absurd (by simpa using hgetid) hoid

theorem C5_promoted_unique_max_witness :
    ∃ box ∈ (bringBoxToFront 1 (runOps [Op.create, Op.create])).2.dragBoxList,
      box.id = 1 ∧
      ∀ other ∈ (bringBoxToFront 1 (runOps [Op.create, Op.create])).2.dragBoxList,
        other.id ≠ 1 → other.zIndex < box.zIndex :=
  C5_promoted_unique_max (runOps [Op.create, Op.create])
    (reachable_runOps [Op.create, Op.create]) 1
    ⟨(createNewBox initState).1, by decide, by decide⟩

/-- Claim C3, amended (proved): in every reachable state `topIndex`
strictly exceeds every live box's `zIndex`; no operation ever decreases
`topIndex`; creation increments `topIndex` but hands out the separate
`zIndex` counter as the new box's stacking order; and a successful
promotion hands out exactly the current `topIndex` and then increments
it. (The box most recently created need not hold the maximum `zIndex`;
see the counterexample.) -/
theorem C3_topIndex_dominates :
    (∀ s : RegState, Reachable s → ∀ box ∈ s.dragBoxList,
      box.zIndex < s.topIndex) ∧
    (∀ (s : RegState) (op : Op), s.topIndex ≤ (applyOp s op).topIndex) ∧
    (∀ s : RegState, (createNewBox s).2.topIndex = s.topIndex + 1 ∧
      (createNewBox s).1.zIndex = s.zIndex) ∧
    (∀ (s : RegState) (id : Nat), (∃ box ∈ s.dragBoxList, box.id = id) →
      (bringBoxToFront id s).1 = some s.topIndex ∧
      (bringBoxToFront id s).2.topIndex = s.topIndex + 1) := by
  refine ⟨?_, ?_, ?_, ?_⟩
  · intro s hs box hbox
    exact (regInv_reachable hs).zIndex_lt box hbox
  · intro s op
    cases op with
    | create => exact Nat.le_succ _
    | delete id => exact Nat.le_refl _
    | promote id =>
      simp only [applyOp, bringBoxToFront]
      cases findIdxAux (fun box => box.id == id) s.dragBoxList with
      | none => exact Nat.le_refl _
      | some i => exact Nat.le_succ _
  · intro s; exact ⟨rfl, rfl⟩
  · intro s id hlive
    obtain ⟨wbox, hwmem, hwid⟩ := hlive
    have hnotnone :
        findIdxAux (fun box => box.id == id) s.dragBoxList ≠ none := by
      intro hnone
      have := (findIdxAux_eq_none_iff.mp hnone) wbox hwmem
      simp [hwid] at this
    obtain ⟨i, hi⟩ := Option.ne_none_iff_exists'.mp hnotnone
    constructor
    · show (bringBoxToFront id s).1 = some s.topIndex
      unfold bringBoxToFront
      rw [hi]
    · show (bringBoxToFront id s).2.topIndex = s.topIndex + 1
      unfold bringBoxToFront
      rw [hi]

theorem C3_topIndex_dominates_witness :
    (bringBoxToFront 1 (runOps [Op.create])).1 = some 2 := by
  have h := C3_topIndex_dominates.2.2.2 (runOps [Op.create]) 1
    ⟨(createNewBox initState).1, by decide, by decide⟩
  exact h.1.trans (by decide)

/-- Claim C6, amended (proved): in every drag session whose captured
bounds and box size satisfy `maxWidth - boxWidth < 0` (respectively
`maxHeight - boxHeight < 0`), every emitted position has its `x`
(respectively `y`) coordinate pinned at the *upper* bound
`maxWidth - boxWidth` (respectively `maxHeight - boxHeight`), a negative
value — the code's `min(max(v, 0), hi)` degenerates to `hi`, not to the
lower bound `0`. -/
theorem C6_negative_range_pins_upper (sess : DragSession) (cx cy : Int) :
    (sess.maxWidth - sess.boxWidth < 0 →
      (movePosition sess cx cy).1 = sess.maxWidth - sess.boxWidth) ∧
    (sess.maxHeight - sess.boxHeight < 0 →
      (movePosition sess cx cy).2 = sess.maxHeight - sess.boxHeight) := by
  unfold movePosition
  constructor <;> intro h <;> simp only [] <;> omega

theorem C6_negative_range_pins_upper_witness :
    (movePosition ⟨0, 0, 10, 5, 20, 10⟩ 3 4).1 = 10 - 20 ∧
    (movePosition ⟨0, 0, 10, 5, 20, 10⟩ 3 4).2 = 5 - 10 :=
  ⟨(C6_negative_range_pins_upper ⟨0, 0, 10, 5, 20, 10⟩ 3 4).1 (by decide),
   (C6_negative_range_pins_upper ⟨0, 0, 10, 5, 20, 10⟩ 3 4).2 (by decide)⟩

theorem boxId_le_applyOp (s : RegState) (op : Op) :
    s.boxId ≤ (applyOp s op).boxId := by
  cases op with
  | create => exact Nat.le_succ _
  | delete id => exact Nat.le_refl _
  | promote id =>
    simp only [applyOp, bringBoxToFront]
    cases findIdxAux (fun box => box.id == id) s.dragBoxList with
    | none => exact Nat.le_refl _
    | some i => exact Nat.le_refl _

theorem createdIds_lb_pairwise :
    ∀ (ops : List Op) (s : RegState),
      (∀ x ∈ createdIds s ops, s.boxId ≤ x) ∧
      (createdIds s ops).Pairwise (· < ·) := by
  intro ops
  induction ops with
  | nil =>
    intro s
    refine ⟨?_, List.Pairwise.nil⟩
    intro x hx
    cases hx
  | cons op ops ih =>
    intro s
    cases op with
    | create =>
      have ihs := ih (createNewBox s).2
      constructor
      · intro x hx
        rcases List.mem_cons.mp hx with rfl | hx'
        · exact Nat.le_refl _
        · exact Nat.le_of_succ_le (ihs.1 x hx')
      · refine List.Pairwise.cons ?_ ihs.2
        intro x hx
        exact Nat.lt_of_succ_le (ihs.1 x hx)
    | delete id =>
      have ihs := ih (deleteBox id s)
      exact ⟨fun x hx => ihs.1 x hx, ihs.2⟩
    | promote id =>
      have ihs := ih (bringBoxToFront id s).2
      refine ⟨fun x hx => le_trans ?_ (ihs.1 x hx), ihs.2⟩
      exact boxId_le_applyOp s (Op.promote id)

theorem head?_append_left (l l' : List α) (h : l ≠ []) :
    (l ++ l').head? = l.head? := by
  cases l with
  | nil => exact absurd rfl h
  | cons a t => rfl

theorem bufferGo_join (quiet : Int) :
    ∀ (ts : List Int) (last : Int) (cur : List Int),
      (bufferGo quiet last cur ts).join = cur.reverse ++ ts := by
  intro ts
  induction ts with
  | nil => intro last cur; simp [bufferGo]
  | cons t ts ih =>
    intro last cur
    by_cases h : quiet ≤ t - last
    · simp [bufferGo, h, ih]
    · simp [bufferGo, h, ih]

theorem closedBuffers_join (ts : List Int) : (closedBuffers ts).join = ts := by
  cases ts with
  | nil => rfl
  | cons t rest => simp [closedBuffers, bufferGo_join]

theorem bufferGo_spec (quiet : Int) :
    ∀ (ts : List Int) (last : Int) (cur : List Int),
      cur.head? = some last →
      cur.reverse.Chain' (fun a b => b - a < quiet) →
      (∀ b ∈ bufferGo quiet last cur ts, b ≠ []) ∧
      (∀ b ∈ bufferGo quiet last cur ts,
        b.Chain' (fun a b => b - a < quiet)) ∧
      (bufferGo quiet last cur ts).Chain' (bufferGap quiet) ∧
      (bufferGo quiet last cur ts).head?.bind List.head?
        = cur.reverse.head? := by
  intro ts
  induction ts with
  | nil =>
    intro last cur hhead hchain
    have hcur : cur ≠ [] := by
      intro h
      rw [h] at hhead
      cases hhead
    have hrev : cur.reverse ≠ [] := by simpa using hcur
    refine ⟨?_, ?_, ?_, ?_⟩
    · intro b hb
      rcases List.mem_singleton.mp hb with rfl
      exact hrev
    · intro b hb
      rcases List.mem_singleton.mp hb with rfl
      exact hchain
    · exact List.chain'_singleton _
    · rfl
  | cons t ts ih =>
    intro last cur hhead hchain
    have hcur : cur ≠ [] := by
      intro h
      rw [h] at hhead
      cases hhead
    have hrev : cur.reverse ≠ [] := by simpa using hcur
    have hlastrev : cur.reverse.getLast? = some last := by
      rw [List.getLast?_reverse]
      exact hhead
    by_cases h : quiet ≤ t - last
    · have ihs := ih t [t] rfl (List.chain'_singleton _)
      have hout : bufferGo quiet last cur (t :: ts)
          = cur.reverse :: bufferGo quiet t [t] ts := by
        simp [bufferGo, h]
      rw [hout]
      refine ⟨?_, ?_, ?_, ?_⟩
      · intro b hb
        rcases List.mem_cons.mp hb with rfl | hb'
        · exact hrev
        · exact ihs.1 b hb'
      · intro b hb
        rcases List.mem_cons.mp hb with rfl | hb'
        · exact hchain
        · exact ihs.2.1 b hb'
      · rw [List.chain'_cons']
        refine ⟨?_, ihs.2.2.1⟩
        intro c hc
        intro x hx y hy
        obtain rfl : last = x := by
          rw [hlastrev] at hx
          simpa using hx
        have hctop : c.head? = some t := by
          have h4 := ihs.2.2.2
          rw [Option.mem_def] at hc
          rw [hc] at h4
          simpa using h4
        obtain rfl : t = y := by
          rw [hctop] at hy
          simpa using hy
        exact h
      · rfl
    · have hchain' :
          (t :: cur).reverse.Chain' (fun a b => b - a < quiet) := by
        rw [List.reverse_cons]
        rw [List.chain'_append]
        refine ⟨hchain, List.chain'_singleton _, ?_⟩
        intro x hx y hy
        obtain rfl : last = x := by
          rw [hlastrev] at hx
          simpa using hx
        obtain rfl : t = y := by simpa using hy
        exact not_le.mp h
      have ihs := ih t (t :: cur) rfl hchain'
      have hout : bufferGo quiet last cur (t :: ts)
          = bufferGo quiet t (t :: cur) ts := by
        simp [bufferGo, h]
      rw [hout]
      refine ⟨ihs.1, ihs.2.1, ihs.2.2.1, ?_⟩
      rw [ihs.2.2.2, List.reverse_cons, head?_append_left _ _ hrev]

theorem closedBuffers_spec (ts : List Int) :
    (∀ b ∈ closedBuffers ts, b ≠ [] ∧ b.Chain' (fun a c => c - a < 250)) ∧
    (closedBuffers ts).Chain' (bufferGap 250) := by
  cases ts with
  | nil =>
    refine ⟨?_, List.chain'_nil⟩
    intro b hb
    cases hb
  | cons t rest =>
    have hs := bufferGo_spec 250 rest t [t] rfl (List.chain'_singleton _)
    exact ⟨fun b hb => ⟨hs.1 b hb, hs.2.1 b hb⟩, hs.2.2.1⟩

theorem doubleClickEmissions_count (ts : List Int) :
    (doubleClickEmissions ts).length
      = (closedBuffers ts).countP (fun b => decide (2 ≤ b.length)) := by
  unfold doubleClickEmissions
  rw [← List.countP_eq_length_filter, List.countP_map]
  rfl

/-- Claim C9 (confirmed): the pointer-down stream is partitioned into
closed gesture buffers (their concatenation is the original stream);
within a buffer consecutive downs are less than 250 ms apart and a buffer
ends exactly when the next down arrives 250 ms or more after its last
down (the quiet period); one double-gesture event fires per closed buffer
exactly when the buffer holds at least two downs; in particular three
downs at 0, 100, 200 ms followed by silence fire exactly one event, and
two downs at 0 and 300 ms fire none. -/
theorem C9_double_gesture_buffering :
    (∀ ts : List Int, (closedBuffers ts).join = ts) ∧
    (∀ ts : List Int, ∀ b ∈ closedBuffers ts,
      b ≠ [] ∧ b.Chain' (fun a c => c - a < 250)) ∧
    (∀ ts : List Int, (closedBuffers ts).Chain' (bufferGap 250)) ∧
    (∀ ts : List Int, (doubleClickEmissions ts).length
      = (closedBuffers ts).countP (fun b => decide (2 ≤ b.length))) ∧
    doubleClickEmissions [0, 100, 200] = [3] ∧
    doubleClickEmissions [0, 300] = [] := by
  refine ⟨closedBuffers_join, fun ts => (closedBuffers_spec ts).1,
    fun ts => (closedBuffers_spec ts).2, doubleClickEmissions_count,
    ?_, ?_⟩
  · rfl
  · rfl

theorem C9_double_gesture_buffering_witness :
    ([0, 100, 200] : List Int).Chain' (fun a c => c - a < 250) :=
  (C9_double_gesture_buffering.2.1 [0, 100, 200] [0, 100, 200]
    (by decide)).2

/-- Claim C10 (confirmed): across any interleaving of registry
operations, the ids returned by the `createNewBox` calls are strictly
increasing in call order, hence pairwise distinct — in particular an id
is never handed out again after the box holding it is deleted. -/
theorem C10_created_ids_increasing (ops : List Op) :
    (createdIds initState ops).Pairwise (· < ·) ∧
    (createdIds initState ops).Nodup := by
  have h := (createdIds_lb_pairwise ops initState).2
  exact ⟨h, h.imp Nat.ne_of_lt⟩

end DraggableBox
